import Mathlib

/-!
Verification development for the memgraph core extract.

Embedded components:
* `slk` — the SLK segment framing codec (`src/slk/streams.cpp`):
  `Builder::Save` / `Builder::Finalize` / `Builder::FlushSegment`,
  `Reader::Load` / `Reader::Finalize` / `Reader::GetSegment`, and
  `CheckStreamComplete`.
* `distributed` — the remote-produce pull server
  (`src/distributed/remote_produce_rpc_server.cpp`): `OngoingProduce::Pull`,
  `OngoingProduce::Accumulate`, `OngoingProduce::PullOneFromCursor`,
  `RemoteProduceRpcServer::RemotePull`, and
  `RemoteProduceRpcServer::ClearTransactionalCache`.
* `config` — the single-node configuration flags
  (`src/database/single_node/config.cpp`).
* `glue` — Bolt value / property value conversions
  (`src/glue/communication.cpp`): `ToPropertyValue` and `ToBoltValue`.

Byte buffers are modelled as `List Nat`; machine-integer headers are encoded
explicitly as four little-endian base-256 digits.  Fallible code (exceptions,
assertion failures) is modelled with `Option` / `Except`.
-/

namespace slk

/-- Four-byte little-endian encoding of a `SegmentSize` (a 32-bit integer:
the spec's "4-byte little-endian size").  Models
`memcpy(segment_, &size, sizeof(SegmentSize))`. -/
def encodeSize (n : Nat) : List Nat :=
  [n % 256, n / 256 % 256, n / 65536 % 256, n / 16777216 % 256]

/-- Little-endian decoding of the four bytes at the front of `l`.  Models
`memcpy(&len, data + pos, sizeof(SegmentSize))`. -/
def decodeSize (l : List Nat) : Nat :=
  l.getD 0 0 + 256 * l.getD 1 0 + 65536 * l.getD 2 0 + 16777216 * l.getD 3 0

/-- The `len` bytes of `data` starting at position `pos`, the model of
reading `data + pos .. data + pos + len` out of a byte buffer. -/
def bytesAt (data : List Nat) (pos len : Nat) : List Nat :=
  (data.drop pos).take len

theorem encodeSize_length (n : Nat) : (encodeSize n).length = 4 := rfl

theorem decodeSize_encodeSize (n : Nat) (h : n < 4294967296) :
    decodeSize (encodeSize n) = n := by
  simp only [encodeSize, decodeSize, List.getD_cons_zero, List.getD_cons_succ]
  omega

/-- Modelled from the spec: `Builder` state as declared in `slk/streams.hpp`
(only the `.cpp` is in the extract).  `buf` is the payload buffered in
`segment_` past the header slot (`pos_` is its length), `out` is everything
handed to `write_func_` so far. -/
structure Builder where
  buf : List Nat
  out : List Nat
deriving DecidableEq, Repr

/-- A fresh builder: empty segment buffer, nothing written. -/
def Builder.start : Builder := ⟨[], []⟩

/-- `Builder::FlushSegment(final_segment)`.  `segMax` stands for the
`kSegmentMaxDataSize` constant of `slk/streams.hpp`.  A non-final flush with a
buffer below capacity returns immediately; otherwise the flush requires a
non-empty buffer (`MG_ASSERT(pos_ > 0)`, modelled as `none`), writes the
size header followed by the payload, and on a final flush appends the
zero footer. -/
def flushSegment (segMax : Nat) (finalSegment : Bool) (b : Builder) :
    Option Builder :=
  if ¬finalSegment = true ∧ b.buf.length < segMax then some b
  else if b.buf.length = 0 then none
  else
    some ⟨[], b.out ++ encodeSize b.buf.length ++ b.buf ++
      if finalSegment then encodeSize 0 else []⟩

/-- `Builder::Save(data, size)`: while bytes remain, flush the segment if it
is full, then copy up to the remaining segment capacity into the buffer.
`none` models the (unreachable for `segMax ≥ 1`) assertion failure and the
non-terminating `segMax = 0` degenerate case. -/
def save (segMax : Nat) (b : Builder) (data : List Nat) : Option Builder :=
  if h : data = [] then some b
  else
    match flushSegment segMax false b with
    | none => none
    | some b1 =>
      if h2 : min data.length (segMax - b1.buf.length) = 0 then none
      else
        let toWrite := min data.length (segMax - b1.buf.length)
        save segMax ⟨b1.buf ++ data.take toWrite, b1.out⟩ (data.drop toWrite)
termination_by data.length
decreasing_by
  simp only [List.length_drop]
  have hd : 0 < data.length := List.length_pos.mpr h
  omega

/-- `Builder::Finalize()`. -/
def builderFinalize (segMax : Nat) (b : Builder) : Option Builder :=
  flushSegment segMax true b

/-- Saving a sequence of writes, one `Builder::Save` call per piece,
starting from a fresh builder. -/
def saveAll (segMax : Nat) (pieces : List (List Nat)) : Option Builder :=
  pieces.foldlM (fun b p => save segMax b p) Builder.start

/-- Saving all pieces and finalizing; the produced byte stream. -/
def buildStream (segMax : Nat) (pieces : List (List Nat)) :
    Option (List Nat) :=
  match saveAll segMax pieces with
  | none => none
  | some b =>
    match builderFinalize segMax b with
    | none => none
    | some b2 => some b2.out

/-- Modelled from the spec / `slk/streams.hpp`: reader cursor `pos_` and the
bytes remaining in the current segment `have_`. -/
structure Reader where
  pos : Nat
  have_ : Nat
deriving DecidableEq, Repr

/-- `Reader::Reader(data, size)` initial state. -/
def Reader.start : Reader := ⟨0, 0⟩

/-- The `SlkReaderException` causes raised by `Reader::GetSegment`. -/
inductive SlkError where
  /-- "There is still leftover data in the SLK stream!" -/
  | leftover
  /-- "Size data missing in SLK stream!" -/
  | sizeMissing
  /-- "Got a non-empty SLK segment when expecting the final segment!" -/
  | nonEmptyFinal
  /-- "Got an empty SLK segment when expecting a non-empty segment!" -/
  | emptyNonFinal
  /-- "There isn't enough data in the SLK stream!" -/
  | notEnough
deriving DecidableEq, Repr

/-- `Reader::GetSegment(should_be_final)` over the buffer `data`. -/
def getSegment (data : List Nat) (shouldBeFinal : Bool) (r : Reader) :
    Except SlkError Reader :=
  if r.have_ ≠ 0 then
    if shouldBeFinal then .error .leftover else .ok r
  else if data.length < r.pos + 4 then .error .sizeMissing
  else
    let len := decodeSize (bytesAt data r.pos 4)
    if shouldBeFinal = true ∧ len ≠ 0 then .error .nonEmptyFinal
    else if shouldBeFinal = false ∧ len = 0 then .error .emptyNonFinal
    else if data.length < r.pos + 4 + len then .error .notEnough
    else .ok ⟨r.pos + 4, len⟩

theorem getSegment_false_have_pos {data : List Nat} {r r1 : Reader}
    (h : getSegment data false r = .ok r1) : 0 < r1.have_ := by
  unfold getSegment at h
  simp only [Bool.false_eq_true, false_and, if_false, eq_self_iff_true,
    true_and, ne_eq] at h
  split at h
  · cases h
    omega
  · split at h
    · simp at h
    · split at h
      · simp at h
      · split at h
        · simp at h
        · cases h
          dsimp only
          omega

/-- `Reader::Load(data, size)`: pull `size` payload bytes, crossing segment
boundaries via `GetSegment`.  Returns the bytes read together with the final
reader state. -/
def load (data : List Nat) (r : Reader) (size : Nat) :
    Except SlkError (List Nat × Reader) :=
  if h : size = 0 then .ok ([], r)
  else
    match hg : getSegment data false r with
    | .error e => .error e
    | .ok r1 =>
      let toRead := min size r1.have_
      match load data ⟨r1.pos + toRead, r1.have_ - toRead⟩ (size - toRead) with
      | .error e => .error e
      | .ok (bs, r2) => .ok (bytesAt data r1.pos toRead ++ bs, r2)
termination_by size
decreasing_by
  have h1 : 0 < r1.have_ := getSegment_false_have_pos hg
  omega

/-- `Reader::Finalize()`. -/
def readerFinalize (data : List Nat) (r : Reader) : Except SlkError Reader :=
  getSegment data true r

/-- `StreamStatus` from `slk/streams.hpp` (per the spec's stream-complete
check outcomes). -/
inductive StreamStatus where
  | COMPLETE
  | PARTIAL
  | INVALID
deriving DecidableEq, Repr

/-- `StreamInfo` result of `CheckStreamComplete`: status, consumed / needed
byte count, and payload (encoded data) byte count. -/
structure StreamInfo where
  status : StreamStatus
  stream_size : Nat
  encoded_data_size : Nat
deriving DecidableEq, Repr

/-- Modelled from the spec: `kSegmentMaxTotalSize` of `slk/streams.hpp`, the
byte size of one maximal segment — a 4-byte header plus up to
`kSegmentMaxDataSize` payload bytes ("current position plus one maximal
segment"). -/
def kSegmentMaxTotalSize (segMax : Nat) : Nat := 4 + segMax

/-- The scanning loop of `CheckStreamComplete`, with the scan position and
the `found_segments` / `data_size` accumulators explicit. -/
def checkLoop (segMax : Nat) (data : List Nat) (pos found ds : Nat) :
    StreamInfo :=
  if data.length < pos + 4 then
    ⟨.PARTIAL, pos + kSegmentMaxTotalSize segMax, ds⟩
  else
    let len := decodeSize (bytesAt data pos 4)
    if len = 0 then
      if found < 1 then ⟨.INVALID, 0, 0⟩
      else ⟨.COMPLETE, pos + 4, ds⟩
    else if data.length < pos + 4 + len then
      ⟨.PARTIAL, pos + 4 + kSegmentMaxTotalSize segMax, ds⟩
    else checkLoop segMax data (pos + 4 + len) (found + 1) (ds + len)
termination_by data.length - pos
decreasing_by omega

/-- `CheckStreamComplete(data, size)`. -/
def checkStreamComplete (segMax : Nat) (data : List Nat) : StreamInfo :=
  checkLoop segMax data 0 0 0

/-- The position at which the `CheckStreamComplete` scan stops (the value of
its internal `pos` variable at return), extracted from the same loop. -/
def scanStop (data : List Nat) (pos : Nat) : Nat :=
  if data.length < pos + 4 then pos
  else
    let len := decodeSize (bytesAt data pos 4)
    if len = 0 then pos + 4
    else if data.length < pos + 4 + len then pos + 4
    else scanStop data (pos + 4 + len)
termination_by data.length - pos
decreasing_by omega

/-- The scan position where `CheckStreamComplete` returns. -/
def checkScanPos (data : List Nat) : Nat := scanStop data 0

end slk

namespace distributed

/-- A typed value inside a frame.  The `reconstructible` flag models whether
`query::ReconstructTypedValue` succeeds on the element in the current
transactional view (it throws `ReconstructionException` otherwise). -/
structure TVal where
  ident : Nat
  reconstructible : Bool
deriving DecidableEq, Repr

/-- `RemotePullState` (declared in `remote_pull_produce_rpc_messages.hpp`;
the spec's pull-state enum). -/
inductive RemotePullState where
  | CURSOR_EXHAUSTED
  | CURSOR_IN_PROGRESS
  | SERIALIZATION_ERROR
  | LOCK_TIMEOUT_ERROR
  | UPDATE_DELETED_ERROR
  | RECONSTRUCTION_ERROR
  | UNABLE_TO_DELETE_VERTEX_ERROR
  | QUERY_ERROR
  | HINTED_ABORT_ERROR
deriving DecidableEq, Repr

/-- The exceptions `OngoingProduce::PullOneFromCursor` catches around
`cursor_->Pull`. -/
inductive PullError where
  | serialization
  | lockTimeout
  | recordDeleted
  | reconstruction
  | removeAttachedVertex
  | queryRuntime
  | hintedAbort
deriving DecidableEq, Repr

/-- The pull state each caught exception is mapped to by the `catch`
clauses of `PullOneFromCursor`. -/
def stateOfError : PullError → RemotePullState
  | .serialization => .SERIALIZATION_ERROR
  | .lockTimeout => .LOCK_TIMEOUT_ERROR
  | .recordDeleted => .UPDATE_DELETED_ERROR
  | .reconstruction => .RECONSTRUCTION_ERROR
  | .removeAttachedVertex => .UNABLE_TO_DELETE_VERTEX_ERROR
  | .queryRuntime => .QUERY_ERROR
  | .hintedAbort => .HINTED_ABORT_ERROR

/-- One observable outcome of `cursor_->Pull(frame_, context_)`: either the
frame is filled so that extracting the pull symbols yields `vals`, or an
exception is thrown.  The end of the step list models the cursor returning
`false` (exhaustion). -/
inductive CursorStep where
  | row (vals : List TVal)
  | err (e : PullError)
deriving DecidableEq, Repr

/-- `RemoteProduceRpcServer::OngoingProduce` state: the remaining cursor
behaviour, `cursor_state_`, and the `accumulation_` buffer. -/
structure OngoingProduce where
  cursor : List CursorStep
  cursor_state : RemotePullState
  accumulation : List (List TVal)
deriving DecidableEq, Repr

/-- `OngoingProduce::PullOneFromCursor`. -/
def pullOneFromCursor (op : OngoingProduce) :
    (List TVal × RemotePullState) × OngoingProduce :=
  if op.cursor_state ≠ .CURSOR_IN_PROGRESS then (([], op.cursor_state), op)
  else
    match op.cursor with
    | [] =>
      (([], .CURSOR_EXHAUSTED), { op with cursor_state := .CURSOR_EXHAUSTED })
    | .row vals :: rest =>
      ((vals, .CURSOR_IN_PROGRESS), { op with cursor := rest })
    | .err e :: rest =>
      (([], stateOfError e),
        { op with cursor := rest, cursor_state := stateOfError e })

theorem stateOfError_ne_in_progress (e : PullError) :
    stateOfError e ≠ .CURSOR_IN_PROGRESS := by
  cases e <;> simp [stateOfError]

theorem pullOneFromCursor_progress (op : OngoingProduce)
    (h : (pullOneFromCursor op).1.2 = .CURSOR_IN_PROGRESS) :
    ((pullOneFromCursor op).2).cursor.length < op.cursor.length := by
  by_cases hc : op.cursor_state = .CURSOR_IN_PROGRESS
  · rcases hcur : op.cursor with _ | ⟨vals | e, rest⟩
    · simp [pullOneFromCursor, hc, hcur] at h
    · simp [pullOneFromCursor, hc, hcur]
    · simp [pullOneFromCursor, hc, hcur] at h
      exact absurd h (stateOfError_ne_in_progress e)
  · simp [pullOneFromCursor, hc] at h

/-- `OngoingProduce::Accumulate`: pull from the cursor until a state other
than in-progress, appending each produced frame at the back of the
accumulation buffer; return the terminal state. -/
def opAccumulate (op : OngoingProduce) : RemotePullState × OngoingProduce :=
  match hp : pullOneFromCursor op with
  | ((res, s), op1) =>
    if hs : s = .CURSOR_IN_PROGRESS then
      opAccumulate { op1 with accumulation := op1.accumulation ++ [res] }
    else (s, op1)
termination_by op.cursor.length
decreasing_by
  have hlt := pullOneFromCursor_progress op (by rw [hp, hs])
  rw [hp] at hlt
  exact hlt

/-- `OngoingProduce::Pull`: if the accumulation buffer is non-empty, pop the
frame at its back and reconstruct each element (on failure the cursor state
becomes reconstruction-error); otherwise pull one result from the cursor. -/
def opPull (op : OngoingProduce) :
    (List TVal × RemotePullState) × OngoingProduce :=
  match op.accumulation.getLast? with
  | some results =>
    let op1 := { op with accumulation := op.accumulation.dropLast }
    if results.all (fun v => v.reconstructible) then
      ((results, .CURSOR_IN_PROGRESS), op1)
    else
      ((results, .RECONSTRUCTION_ERROR),
        { op1 with cursor_state := .RECONSTRUCTION_ERROR })
  | none => pullOneFromCursor op

/-- The batched loop at the bottom of `RemoteProduceRpcServer::RemotePull`:
up to `batch` calls to `Pull`, emitting frames while the returned state is
in-progress.  `init` is the pull state already stored in the result when the
loop starts. -/
def pullBatch (init : RemotePullState) (batch : Nat) (op : OngoingProduce) :
    (RemotePullState × List (List TVal)) × OngoingProduce :=
  match batch with
  | 0 => ((init, []), op)
  | n + 1 =>
    match opPull op with
    | ((res, s), op1) =>
      if s ≠ .CURSOR_IN_PROGRESS then ((s, []), op1)
      else
        match pullBatch s n op1 with
        | ((s2, frames), op2) => ((s2, res :: frames), op2)

/-- A remote-pull response: the pull state and the emitted frames (the
`state_and_frames` part of `RemotePullResData`). -/
structure RemotePullRes where
  pull_state : RemotePullState
  frames : List (List TVal)
deriving DecidableEq, Repr

/-- `RemoteProduceRpcServer::RemotePull`, after the ongoing produce for the
request key has been fetched: accumulate first when requested — returning
immediately unless the drain ended cursor-exhausted — then run the batched
pull loop. -/
def remotePull (accumulate : Bool) (batch : Nat) (op : OngoingProduce) :
    RemotePullRes × OngoingProduce :=
  if accumulate then
    match opAccumulate op with
    | (s, op1) =>
      if s ≠ .CURSOR_EXHAUSTED then (⟨s, []⟩, op1)
      else
        match pullBatch .CURSOR_EXHAUSTED batch op1 with
        | ((s2, frames), op2) => (⟨s2, frames⟩, op2)
  else
    match pullBatch .CURSOR_IN_PROGRESS batch op with
    | ((s2, frames), op2) => (⟨s2, frames⟩, op2)

/-- `RemoteProduceRpcServer::ClearTransactionalCache`: drop every
ongoing-produce entry whose key's transaction identifier is strictly below
`oldest_active`.  The concurrent map is modelled as an association list keyed
by (transaction id, plan id). -/
def clearTransactionalCache (oldest_active : Nat)
    (m : List ((Nat × Nat) × OngoingProduce)) :
    List ((Nat × Nat) × OngoingProduce) :=
  m.filter (fun kv => !decide (kv.1.1 < oldest_active))

end distributed

namespace config

/-- The registered validator of the `snapshot_cycle_sec` flag:
`FLAG_IN_RANGE(1, std::numeric_limits<int32_t>::max())` from
`database/single_node/config.cpp`. -/
def snapshotCycleSecValid (v : Int) : Bool :=
  decide (1 ≤ v ∧ v ≤ 2147483647)

/-- The default value of `snapshot_cycle_sec` (`DEFINE_VALIDATED_int32`'s
second argument). -/
def snapshotCycleSecDefault : Int := 3600

/-- The minimum documented by the flag's own help text, "Amount of time
between two snapshots, in seconds (min 60).", and by the spec. -/
def snapshotCycleSecDocumentedMin : Int := 60

end config

namespace glue

/-- `communication::bolt::Value` (`Value::Type` tags per the switches in
`glue/communication.cpp`).  The `double` payload is the verbatim bit pattern
(conversions copy it unchanged); the graph types carry opaque payloads, since
`ToPropertyValue` never inspects them. -/
inductive BoltValue where
  | null
  | bool (b : Bool)
  | int (i : Int)
  | double (bits : Nat)
  | str (s : String)
  | list (l : List BoltValue)
  | map (m : List (String × BoltValue))
  | vertex (payload : Nat)
  | edge (payload : Nat)
  | unboundedEdge (payload : Nat)
  | path (payload : Nat)
deriving Repr

/-- `PropertyValue` (spec §3: tagged union over null, bool, int64, float64,
string, list, string-keyed map).  Maps are association lists in `std::map`
iteration order. -/
inductive PropertyValue where
  | null
  | bool (b : Bool)
  | int (i : Int)
  | double (bits : Nat)
  | str (s : String)
  | list (l : List PropertyValue)
  | map (m : List (String × PropertyValue))
deriving Repr

mutual

/-- `glue::ToPropertyValue(const Value &)`.  `none` models the thrown
`communication::bolt::ValueException` on the graph types. -/
def toPropertyValue : BoltValue → Option PropertyValue
  | .null => some .null
  | .bool b => some (.bool b)
  | .int i => some (.int i)
  | .double d => some (.double d)
  | .str s => some (.str s)
  | .list l =>
    match toPropertyValueList l with
    | none => none
    | some l2 => some (.list l2)
  | .map m =>
    match toPropertyValueMap m with
    | none => none
    | some m2 => some (.map m2)
  | .vertex _ => none
  | .edge _ => none
  | .unboundedEdge _ => none
  | .path _ => none

/-- The `Value::Type::List` loop of `glue::ToPropertyValue`. -/
def toPropertyValueList : List BoltValue → Option (List PropertyValue)
  | [] => some []
  | v :: rest =>
    match toPropertyValue v with
    | none => none
    | some p =>
      match toPropertyValueList rest with
      | none => none
      | some ps => some (p :: ps)

/-- The `Value::Type::Map` loop of `glue::ToPropertyValue`. -/
def toPropertyValueMap :
    List (String × BoltValue) → Option (List (String × PropertyValue))
  | [] => some []
  | (k, v) :: rest =>
    match toPropertyValue v with
    | none => none
    | some p =>
      match toPropertyValueMap rest with
      | none => none
      | some ps => some ((k, p) :: ps)

end

mutual

/-- `glue::ToBoltValue(const PropertyValue &)`. -/
def toBoltValue : PropertyValue → BoltValue
  | .null => .null
  | .bool b => .bool b
  | .int i => .int i
  | .double d => .double d
  | .str s => .str s
  | .list l => .list (toBoltValueList l)
  | .map m => .map (toBoltValueMap m)

/-- The `PropertyValue::Type::List` loop of `glue::ToBoltValue`. -/
def toBoltValueList : List PropertyValue → List BoltValue
  | [] => []
  | p :: rest => toBoltValue p :: toBoltValueList rest

/-- The `PropertyValue::Type::Map` loop of `glue::ToBoltValue`. -/
def toBoltValueMap :
    List (String × PropertyValue) → List (String × BoltValue)
  | [] => []
  | (k, p) :: rest => (k, toBoltValue p) :: toBoltValueMap rest

end

mutual

/-- A Bolt value recursively restricted to the seven property-representable
types (null, bool, int, double, string, list, map). -/
def plain : BoltValue → Bool
  | .null => true
  | .bool _ => true
  | .int _ => true
  | .double _ => true
  | .str _ => true
  | .list l => plainList l
  | .map m => plainMap m
  | .vertex _ => false
  | .edge _ => false
  | .unboundedEdge _ => false
  | .path _ => false

/-- `plain`, on every element of a list. -/
def plainList : List BoltValue → Bool
  | [] => true
  | v :: rest => plain v && plainList rest

/-- `plain`, on every value of a string-keyed map. -/
def plainMap : List (String × BoltValue) → Bool
  | [] => true
  | (_, v) :: rest => plain v && plainMap rest

end

end glue

namespace slk

/-- One encoded segment: the 4-byte size header followed by the payload. -/
def segChunk (s : List Nat) : List Nat := encodeSize s.length ++ s

/-- The byte encoding of a list of segments (without the terminator). -/
def encodeSegs (segs : List (List Nat)) : List Nat := (segs.map segChunk).flatten

/-- Builder invariant: the bytes written so far encode the segments `segs`,
all non-empty and within the size cap, and the flushed payloads followed by
the pending buffer make up the payload `p` saved so far. -/
def BuilderInv (segMax : Nat) (p : List Nat) (b : Builder) : Prop :=
  ∃ segs : List (List Nat),
    (∀ s ∈ segs, s ≠ [] ∧ s.length ≤ segMax) ∧
    b.out = encodeSegs segs ∧
    segs.flatten ++ b.buf = p ∧
    b.buf.length ≤ segMax

theorem encodeSegs_append (a b : List (List Nat)) :
    encodeSegs (a ++ b) = encodeSegs a ++ encodeSegs b := by
  simp [encodeSegs]

theorem builderInv_start (segMax : Nat) : BuilderInv segMax [] Builder.start :=
  ⟨[], by simp, by simp [Builder.start, encodeSegs], by simp [Builder.start],
    by simp [Builder.start]⟩

theorem flushSegment_false_ok (segMax : Nat) (h1 : 1 ≤ segMax)
    {p : List Nat} {b : Builder} (hb : BuilderInv segMax p b) :
    ∃ b1, flushSegment segMax false b = some b1 ∧
      BuilderInv segMax p b1 ∧ b1.buf.length < segMax := by
  obtain ⟨segs, hsegs, hout, hjoin, hle⟩ := hb
  by_cases hfull : b.buf.length < segMax
  · refine ⟨b, ?_, ⟨segs, hsegs, hout, hjoin, hle⟩, hfull⟩
    unfold flushSegment
    rw [if_pos ⟨by simp, hfull⟩]
  · have heq : b.buf.length = segMax := le_antisymm hle (le_of_not_lt hfull)
    refine ⟨⟨[], b.out ++ encodeSize b.buf.length ++ b.buf⟩, ?_, ?_, by simpa⟩
    · have hz : ¬b.buf.length = 0 := by omega
      simp [flushSegment, hfull, hz]
    · refine ⟨segs ++ [b.buf], ?_, ?_, ?_, by simp⟩
      · intro s hs
        rcases List.mem_append.mp hs with h | h
        · exact hsegs s h
        · rcases List.mem_singleton.mp h with rfl
          exact ⟨by intro hnil; rw [hnil] at heq; simp at heq; omega, hle⟩
      · simp [encodeSegs_append, hout, encodeSegs, segChunk]
      · simpa using hjoin

theorem save_ok_aux (segMax : Nat) (h1 : 1 ≤ segMax) :
    ∀ (n : Nat) (d : List Nat), d.length ≤ n → ∀ (b : Builder) (p : List Nat),
    BuilderInv segMax p b →
    ∃ b', save segMax b d = some b' ∧ BuilderInv segMax (p ++ d) b' ∧
      (d ≠ [] → b'.buf ≠ []) ∧ (d = [] → b' = b) := by
  intro n
  induction n with
  | zero =>
    intro d hd b p hb
    have hdn : d = [] := List.length_eq_zero.mp (Nat.le_zero.mp hd)
    subst hdn
    exact ⟨b, by rw [save]; simp, by simpa using hb, by simp, fun _ => rfl⟩
  | succ n ih =>
    intro d hd b p hb
    by_cases hnil : d = []
    · subst hnil
      exact ⟨b, by rw [save]; simp, by simpa using hb, by simp, fun _ => rfl⟩
    · obtain ⟨b1, hflush, hb1, hlt⟩ := flushSegment_false_ok segMax h1 hb
      have hdpos : 0 < d.length := List.length_pos.mpr hnil
      have htwpos : 0 < min d.length (segMax - b1.buf.length) := by omega
      have hb2 : BuilderInv segMax
          (p ++ d.take (min d.length (segMax - b1.buf.length)))
          ⟨b1.buf ++ d.take (min d.length (segMax - b1.buf.length)), b1.out⟩ := by
        obtain ⟨segs, hsegs, hout, hjoin, hle⟩ := hb1
        refine ⟨segs, hsegs, hout, ?_, ?_⟩
        · rw [← hjoin]
          simp [List.append_assoc]
        · simp only [List.length_append, List.length_take]
          omega
      obtain ⟨b', hsave', hb', hne', hbase'⟩ :=
        ih (d.drop (min d.length (segMax - b1.buf.length)))
          (by simp only [List.length_drop]; omega)
          ⟨b1.buf ++ d.take (min d.length (segMax - b1.buf.length)), b1.out⟩
          (p ++ d.take (min d.length (segMax - b1.buf.length))) hb2
      refine ⟨b', ?_, ?_, ?_, fun hc => absurd hc hnil⟩
      · rw [save, dif_neg hnil, hflush]
        dsimp only
        rw [dif_neg (by omega)]
        exact hsave'
      · rw [List.append_assoc, List.take_append_drop] at hb'
        exact hb'
      · intro _
        by_cases hdrop : d.drop (min d.length (segMax - b1.buf.length)) = []
        · rw [hbase' hdrop]
          have htake : d.take (min d.length (segMax - b1.buf.length)) ≠ [] := by
            intro hc
            have := congrArg List.length hc
            simp only [List.length_take, List.length_nil] at this
            omega
          simp only [ne_eq, List.append_eq_nil]
          intro hc
          exact htake hc.2
        · exact hne' hdrop

theorem save_ok (segMax : Nat) (h1 : 1 ≤ segMax) (d : List Nat) (b : Builder)
    (p : List Nat) (hb : BuilderInv segMax p b) :
    ∃ b', save segMax b d = some b' ∧ BuilderInv segMax (p ++ d) b' ∧
      (d ≠ [] → b'.buf ≠ []) ∧ (d = [] → b' = b) :=
  save_ok_aux segMax h1 d.length d le_rfl b p hb

theorem saveAll_fold_ok (segMax : Nat) (h1 : 1 ≤ segMax) :
    ∀ (pieces : List (List Nat)) (b : Builder) (p : List Nat),
    BuilderInv segMax p b → (p ≠ [] → b.buf ≠ []) →
    ∃ b', pieces.foldlM (fun b q => save segMax b q) b = some b' ∧
      BuilderInv segMax (p ++ pieces.flatten) b' ∧
      (p ++ pieces.flatten ≠ [] → b'.buf ≠ []) := by
  intro pieces
  induction pieces with
  | nil =>
    intro b p hb hne
    exact ⟨b, rfl, by simpa using hb, by simpa using hne⟩
  | cons q rest ih =>
    intro b p hb hne
    obtain ⟨b1, hsave, hb1, hne1, hbase1⟩ := save_ok segMax h1 q b p hb
    have hne1' : p ++ q ≠ [] → b1.buf ≠ [] := by
      intro hpq
      by_cases hq : q = []
      · subst hq
        rw [hbase1 rfl]
        exact hne (by simpa using hpq)
      · exact hne1 hq
    obtain ⟨b', hfold, hb', hne'⟩ := ih b1 (p ++ q) hb1 hne1'
    refine ⟨b', ?_, ?_, ?_⟩
    · rw [List.foldlM_cons, hsave]
      exact hfold
    · rw [List.flatten_cons, ← List.append_assoc]
      exact hb'
    · intro hfl
      apply hne'
      rw [List.flatten_cons, ← List.append_assoc] at hfl
      exact hfl

theorem builderFinalize_ok (segMax : Nat) {p : List Nat} {b : Builder}
    (hb : BuilderInv segMax p b) (hbuf : b.buf ≠ []) :
    ∃ segs : List (List Nat),
      (∀ s ∈ segs, s ≠ [] ∧ s.length ≤ segMax) ∧
      segs.flatten = p ∧ segs ≠ [] ∧
      builderFinalize segMax b = some ⟨[], encodeSegs segs ++ encodeSize 0⟩ := by
  obtain ⟨segs, hsegs, hout, hjoin, hle⟩ := hb
  refine ⟨segs ++ [b.buf], ?_, ?_, by simp, ?_⟩
  · intro s hs
    rcases List.mem_append.mp hs with h | h
    · exact hsegs s h
    · rcases List.mem_singleton.mp h with rfl
      exact ⟨hbuf, hle⟩
  · simpa using hjoin
  · have hz : ¬b.buf.length = 0 := by
      simpa [List.length_eq_zero] using hbuf
    unfold builderFinalize flushSegment
    rw [if_neg (by simp), if_neg hz]
    simp [encodeSegs_append, hout, encodeSegs, segChunk]

theorem buildStream_ok (segMax : Nat) (h1 : 1 ≤ segMax)
    (pieces : List (List Nat)) (hne : pieces.flatten ≠ []) :
    ∃ segs : List (List Nat),
      (∀ s ∈ segs, s ≠ [] ∧ s.length ≤ segMax) ∧
      segs.flatten = pieces.flatten ∧ segs ≠ [] ∧
      buildStream segMax pieces = some (encodeSegs segs ++ encodeSize 0) := by
  obtain ⟨b, hfold, hb, hbuf⟩ := saveAll_fold_ok segMax h1 pieces Builder.start []
    (builderInv_start segMax) (by simp)
  rw [List.nil_append] at hb hbuf
  obtain ⟨segs, hsegs, hflat, hsne, hfin⟩ :=
    builderFinalize_ok segMax hb (hbuf hne)
  refine ⟨segs, hsegs, hflat, hsne, ?_⟩
  unfold buildStream saveAll
  rw [hfold]
  dsimp only
  rw [hfin]

theorem getSegment_false_at (pre tail : List Nat) (n : Nat)
    (hn : n < 4294967296) (h0 : n ≠ 0) (hlen : n ≤ tail.length) :
    getSegment (pre ++ encodeSize n ++ tail) false ⟨pre.length, 0⟩ =
      .ok ⟨pre.length + 4, n⟩ := by
  have hdat : (pre ++ encodeSize n ++ tail).length
      = pre.length + 4 + tail.length := by
    simp only [List.length_append, encodeSize_length]
  have hbytes : bytesAt (pre ++ encodeSize n ++ tail) pre.length 4
      = encodeSize n := by
    unfold bytesAt
    rw [List.append_assoc, List.drop_left]
    rw [← encodeSize_length n, List.take_left]
  unfold getSegment
  rw [hbytes, decodeSize_encodeSize n hn]
  dsimp only
  rw [if_neg (by simp)]
  rw [if_neg (by omega)]
  rw [if_neg (by simp)]
  rw [if_neg (by simp [h0])]
  rw [if_neg (by omega)]

theorem getSegment_true_at (pre tail : List Nat) :
    getSegment (pre ++ encodeSize 0 ++ tail) true ⟨pre.length, 0⟩ =
      .ok ⟨pre.length + 4, 0⟩ := by
  have hdat : (pre ++ encodeSize 0 ++ tail).length
      = pre.length + 4 + tail.length := by
    simp only [List.length_append, encodeSize_length]
  have hbytes : bytesAt (pre ++ encodeSize 0 ++ tail) pre.length 4
      = encodeSize 0 := by
    unfold bytesAt
    rw [List.append_assoc, List.drop_left]
    rw [← encodeSize_length 0, List.take_left]
  unfold getSegment
  rw [hbytes, decodeSize_encodeSize 0 (by omega)]
  dsimp only
  rw [if_neg (by simp)]
  rw [if_neg (by omega)]
  rw [if_neg (by simp)]
  rw [if_neg (by simp)]
  rw [if_neg (by omega)]

theorem load_step {data : List Nat} {r r1 : Reader} {size : Nat}
    (hsz : size ≠ 0) (hg : getSegment data false r = .ok r1) :
    load data r size =
      match load data ⟨r1.pos + min size r1.have_, r1.have_ - min size r1.have_⟩
          (size - min size r1.have_) with
      | .error e => .error e
      | .ok (bs, r2) => .ok (bytesAt data r1.pos (min size r1.have_) ++ bs, r2) := by
  rw [load]
  rw [dif_neg hsz]
  split
  · rename_i e heq
    rw [hg] at heq
    exact absurd heq (by simp)
  · rename_i r1h heq
    rw [hg] at heq
    cases heq
    rfl

theorem load_encodeSegs :
    ∀ (segs : List (List Nat)), (∀ s ∈ segs, s ≠ [] ∧ s.length < 4294967296) →
    ∀ (pre rest : List Nat),
    load (pre ++ encodeSegs segs ++ rest) ⟨pre.length, 0⟩ segs.flatten.length =
      .ok (segs.flatten, ⟨pre.length + (encodeSegs segs).length, 0⟩) := by
  intro segs
  induction segs with
  | nil =>
    intro _ pre rest
    rw [load]
    simp [encodeSegs]
  | cons s tl ih =>
    intro hseg pre rest
    obtain ⟨hs0, hslt⟩ := hseg s (by simp)
    have htl : ∀ t ∈ tl, t ≠ [] ∧ t.length < 4294967296 :=
      fun t ht => hseg t (by simp [ht])
    have hspos : 0 < s.length := List.length_pos.mpr hs0
    have hdata : pre ++ encodeSegs (s :: tl) ++ rest =
        pre ++ encodeSize s.length ++ (s ++ (encodeSegs tl ++ rest)) := by
      simp [encodeSegs, segChunk]
    have hg : getSegment (pre ++ encodeSegs (s :: tl) ++ rest) false
        ⟨pre.length, 0⟩ = .ok ⟨pre.length + 4, s.length⟩ := by
      rw [hdata]
      exact getSegment_false_at pre (s ++ (encodeSegs tl ++ rest)) s.length hslt
        (by simpa using hs0) (by simp)
    have hsz : (s :: tl).flatten.length ≠ 0 := by
      simp only [List.flatten_cons, List.length_append]
      omega
    rw [load_step hsz hg]
    dsimp only
    have hmin : min (s :: tl).flatten.length s.length = s.length := by
      simp only [List.flatten_cons, List.length_append]
      omega
    rw [hmin]
    have hrem : (s :: tl).flatten.length - s.length = tl.flatten.length := by
      simp only [List.flatten_cons, List.length_append]
      omega
    rw [hrem, Nat.sub_self]
    have hdata2 : pre ++ encodeSegs (s :: tl) ++ rest =
        (pre ++ encodeSize s.length ++ s) ++ encodeSegs tl ++ rest := by
      simp [encodeSegs, segChunk]
    rw [hdata2]
    have hpos : pre.length + 4 + s.length
        = (pre ++ encodeSize s.length ++ s).length := by
      simp only [List.length_append, encodeSize_length]
    rw [hpos]
    rw [ih htl (pre ++ encodeSize s.length ++ s) rest]
    dsimp only
    have hbytes2 : bytesAt ((pre ++ encodeSize s.length ++ s) ++
        encodeSegs tl ++ rest) (pre.length + 4) s.length = s := by
      unfold bytesAt
      have hassoc : (pre ++ encodeSize s.length ++ s) ++ encodeSegs tl ++ rest
          = (pre ++ encodeSize s.length) ++ (s ++ (encodeSegs tl ++ rest)) := by
        simp
      rw [hassoc,
        show pre.length + 4 = (pre ++ encodeSize s.length).length by
          simp only [List.length_append, encodeSize_length],
        List.drop_left]
      exact List.take_left s (encodeSegs tl ++ rest)
    rw [hbytes2]
    simp [encodeSegs, segChunk, encodeSize]
    omega

theorem bytesAt_encodeSize (pre tail : List Nat) (n : Nat) :
    bytesAt (pre ++ encodeSize n ++ tail) pre.length 4 = encodeSize n := by
  unfold bytesAt
  rw [List.append_assoc, List.drop_left]
  rw [← encodeSize_length n, List.take_left]

theorem bytesAt_encodeSize_notail (pre : List Nat) (n : Nat) :
    bytesAt (pre ++ encodeSize n) pre.length 4 = encodeSize n := by
  have h := bytesAt_encodeSize pre [] n
  simpa using h

theorem encodeSegs_cons_length (s : List Nat) (tl : List (List Nat)) :
    (encodeSegs (s :: tl)).length = 4 + s.length + (encodeSegs tl).length := by
  simp only [encodeSegs, List.map_cons, List.flatten_cons, List.length_append,
    segChunk, encodeSize_length]

theorem checkLoop_encodeSegs (segMax : Nat) :
    ∀ (segs : List (List Nat)), (∀ s ∈ segs, s ≠ [] ∧ s.length < 4294967296) →
    ∀ (pre : List Nat) (found ds : Nat), 1 ≤ found + segs.length →
    checkLoop segMax (pre ++ encodeSegs segs ++ encodeSize 0) pre.length found ds
      = ⟨.COMPLETE, pre.length + (encodeSegs segs).length + 4,
          ds + segs.flatten.length⟩ := by
  intro segs
  induction segs with
  | nil =>
    intro _ pre found ds hfound
    have hd : pre ++ encodeSegs [] ++ encodeSize 0 = pre ++ encodeSize 0 := by
      simp [encodeSegs]
    rw [hd, checkLoop]
    have hL : (pre ++ encodeSize 0).length = pre.length + 4 := by
      simp only [List.length_append, encodeSize_length]
    rw [if_neg (by omega)]
    rw [bytesAt_encodeSize_notail pre 0, decodeSize_encodeSize 0 (by omega)]
    dsimp only
    rw [if_pos rfl]
    simp only [List.length_nil, Nat.add_zero] at hfound
    rw [if_neg (by omega)]
    simp [encodeSegs]
  | cons s tl ih =>
    intro hseg pre found ds hfound
    obtain ⟨hs0, hslt⟩ := hseg s (by simp)
    have htl : ∀ t ∈ tl, t ≠ [] ∧ t.length < 4294967296 :=
      fun t ht => hseg t (List.mem_cons_of_mem s ht)
    have hspos : 0 < s.length := List.length_pos.mpr hs0
    have hdata : pre ++ encodeSegs (s :: tl) ++ encodeSize 0 =
        pre ++ encodeSize s.length ++ (s ++ (encodeSegs tl ++ encodeSize 0)) := by
      simp [encodeSegs, segChunk]
    have hdata2 : pre ++ encodeSegs (s :: tl) ++ encodeSize 0 =
        (pre ++ encodeSize s.length ++ s) ++ encodeSegs tl ++ encodeSize 0 := by
      simp [encodeSegs, segChunk]
    have hlen : (pre ++ encodeSegs (s :: tl) ++ encodeSize 0).length =
        pre.length + 4 + s.length + (encodeSegs tl).length + 4 := by
      rw [hdata]
      simp only [List.length_append, encodeSize_length]
      omega
    rw [checkLoop]
    rw [if_neg (by omega)]
    have hbytes : bytesAt (pre ++ encodeSegs (s :: tl) ++ encodeSize 0)
        pre.length 4 = encodeSize s.length := by
      rw [hdata]
      exact bytesAt_encodeSize pre (s ++ (encodeSegs tl ++ encodeSize 0)) s.length
    rw [hbytes, decodeSize_encodeSize s.length hslt]
    dsimp only
    rw [if_neg (by omega)]
    rw [if_neg (by omega)]
    rw [hdata2]
    have hpos : pre.length + 4 + s.length
        = (pre ++ encodeSize s.length ++ s).length := by
      simp only [List.length_append, encodeSize_length]
    rw [hpos]
    rw [ih htl (pre ++ encodeSize s.length ++ s) (found + 1) (ds + s.length)
      (by omega)]
    simp only [StreamInfo.mk.injEq, encodeSegs_cons_length, List.flatten_cons,
      List.length_append, encodeSize_length]
    refine ⟨trivial, by omega, by omega⟩

theorem checkLoop_partial_hint (segMax : Nat) (data : List Nat)
    (pos found ds : Nat)
    (h : (checkLoop segMax data pos found ds).status = .PARTIAL) :
    (checkLoop segMax data pos found ds).stream_size =
      scanStop data pos + kSegmentMaxTotalSize segMax := by
  rw [checkLoop] at h ⊢
  rw [scanStop]
  by_cases h1 : data.length < pos + 4
  · rw [if_pos h1]
    rw [if_pos h1]
  · rw [if_neg h1] at h ⊢
    rw [if_neg h1]
    dsimp only at h ⊢
    by_cases h2 : decodeSize (bytesAt data pos 4) = 0
    · rw [if_pos h2] at h ⊢
      rw [if_pos h2]
      by_cases h3 : found < 1
      · rw [if_pos h3] at h
        simp at h
      · rw [if_neg h3] at h
        simp at h
    · rw [if_neg h2] at h ⊢
      rw [if_neg h2]
      by_cases h3 : data.length < pos + 4 + decodeSize (bytesAt data pos 4)
      · rw [if_pos h3]
        rw [if_pos h3]
      · rw [if_neg h3] at h ⊢
        rw [if_neg h3]
        exact checkLoop_partial_hint segMax data
          (pos + 4 + decodeSize (bytesAt data pos 4)) (found + 1)
          (ds + decodeSize (bytesAt data pos 4)) h
termination_by data.length - pos
decreasing_by omega

/-- Whether an `Except` result models a thrown exception. -/
def isErr {ε α : Type} : Except ε α → Bool
  | .error _ => true
  | .ok _ => false

theorem stream_load_finalize_ok (segs : List (List Nat))
    (hsegs : ∀ s ∈ segs, s ≠ [] ∧ s.length < 4294967296) :
    load (encodeSegs segs ++ encodeSize 0) Reader.start segs.flatten.length =
      .ok (segs.flatten, ⟨(encodeSegs segs).length, 0⟩) ∧
    readerFinalize (encodeSegs segs ++ encodeSize 0)
      ⟨(encodeSegs segs).length, 0⟩ = .ok ⟨(encodeSegs segs).length + 4, 0⟩ := by
  constructor
  · have h := load_encodeSegs segs hsegs [] (encodeSize 0)
    simpa [Reader.start] using h
  · have h := getSegment_true_at (encodeSegs segs) []
    unfold readerFinalize
    simpa using h

theorem saveAll_all_empty (segMax : Nat) :
    ∀ pieces : List (List Nat), pieces.flatten = [] →
    saveAll segMax pieces = some Builder.start := by
  unfold saveAll
  have hgen : ∀ (pieces : List (List Nat)) (b : Builder), pieces.flatten = [] →
      pieces.foldlM (fun b q => save segMax b q) b = some b := by
    intro pieces
    induction pieces with
    | nil => intro b _; rfl
    | cons q rest ih =>
      intro b h
      simp only [List.flatten_cons, List.append_eq_nil] at h
      obtain ⟨hq, hrest⟩ := h
      subst hq
      rw [List.foldlM_cons]
      rw [show save segMax b [] = some b by rw [save]; simp]
      exact ih b hrest
  intro pieces h
  exact hgen pieces Builder.start h

/-- C1 (amended to non-empty payloads): for every non-empty byte sequence `P`
and every partition of `P` into writes, saving the pieces and finalizing
produces a stream from which loading `|P|` bytes reproduces `P`, finalizing
the reader succeeds, and the stream-complete check reports COMPLETE with the
whole stream consumed and payload byte count `|P|`. -/
theorem C1_framing_roundtrip_nonempty (segMax : Nat) (h1 : 1 ≤ segMax)
    (hmax : segMax < 4294967296) (pieces : List (List Nat)) (P : List Nat)
    (hP : pieces.flatten = P) (hne : P ≠ []) :
    ∃ stream : List Nat, buildStream segMax pieces = some stream ∧
      load stream Reader.start P.length =
        .ok (P, ⟨stream.length - 4, 0⟩) ∧
      readerFinalize stream ⟨stream.length - 4, 0⟩ = .ok ⟨stream.length, 0⟩ ∧
      checkStreamComplete segMax stream =
        ⟨.COMPLETE, stream.length, P.length⟩ := by
  subst hP
  obtain ⟨segs, hsegs, hflat, hsne, hbuild⟩ :=
    buildStream_ok segMax h1 pieces hne
  have hsegs' : ∀ s ∈ segs, s ≠ [] ∧ s.length < 4294967296 :=
    fun s hs => ⟨(hsegs s hs).1, lt_of_le_of_lt (hsegs s hs).2 hmax⟩
  have hstreamlen : (encodeSegs segs ++ encodeSize 0).length =
      (encodeSegs segs).length + 4 := by
    simp only [List.length_append, encodeSize_length]
  obtain ⟨hload, hfin⟩ := stream_load_finalize_ok segs hsegs'
  refine ⟨encodeSegs segs ++ encodeSize 0, hbuild, ?_, ?_, ?_⟩
  · rw [hstreamlen]
    simpa [hflat] using hload
  · rw [hstreamlen]
    simpa using hfin
  · have hc := checkLoop_encodeSegs segMax segs hsegs' [] 0 0
      (by have := List.length_pos.mpr hsne; omega)
    unfold checkStreamComplete
    simp only [List.nil_append, List.length_nil] at hc
    rw [hc]
    rw [hstreamlen, hflat]
    simp

/-- C1, as stated, fails on the empty payload: with zero payload bytes saved
(whether by no writes or by an empty write), `Builder::Finalize` hits the
`MG_ASSERT(pos_ > 0)` assertion and no stream is produced. -/
theorem C1_counterexample_empty_payload :
    buildStream 8 [] = none ∧ buildStream 8 [[]] = none := by
  have hfin : builderFinalize 8 Builder.start = none := by
    simp [builderFinalize, flushSegment, Builder.start]
  constructor
  · unfold buildStream
    rw [saveAll_all_empty 8 [] rfl]
    dsimp only
    rw [hfin]
  · unfold buildStream
    rw [saveAll_all_empty 8 [[]] rfl]
    dsimp only
    rw [hfin]

theorem C1_witness :
    1 ≤ 8 ∧ (8 : Nat) < 4294967296 ∧
    ([[1, 2, 3], [4, 5]] : List (List Nat)).flatten = [1, 2, 3, 4, 5] ∧
    ([1, 2, 3, 4, 5] : List Nat) ≠ [] ∧
    (∃ stream : List Nat, buildStream 8 [[1, 2, 3], [4, 5]] = some stream ∧
      load stream Reader.start ([1, 2, 3, 4, 5] : List Nat).length =
        .ok ([1, 2, 3, 4, 5], ⟨stream.length - 4, 0⟩) ∧
      readerFinalize stream ⟨stream.length - 4, 0⟩ = .ok ⟨stream.length, 0⟩ ∧
      checkStreamComplete 8 stream =
        ⟨.COMPLETE, stream.length, ([1, 2, 3, 4, 5] : List Nat).length⟩) :=
  ⟨by decide, by decide, by decide, by decide,
    C1_framing_roundtrip_nonempty 8 (by decide) (by decide) [[1, 2, 3], [4, 5]]
      [1, 2, 3, 4, 5] (by decide) (by decide)⟩

/-- C4: on the 11-byte input `[04 00 00 00] "abcd" [00 00 00]` the
stream-complete check returns PARTIAL with payload byte count 4 (and hint
position 8 plus one maximal segment); and in every PARTIAL result the
needed-bytes hint is the stopping scan position plus one maximal total
segment size. -/
theorem C4_partial_detection :
    (∀ segMax : Nat,
      checkStreamComplete segMax [4, 0, 0, 0, 97, 98, 99, 100, 0, 0, 0] =
        ⟨.PARTIAL, 8 + kSegmentMaxTotalSize segMax, 4⟩) ∧
    (∀ (segMax : Nat) (data : List Nat),
      (checkStreamComplete segMax data).status = .PARTIAL →
      (checkStreamComplete segMax data).stream_size =
        checkScanPos data + kSegmentMaxTotalSize segMax) := by
  constructor
  · intro segMax
    unfold checkStreamComplete
    rw [checkLoop]
    rw [if_neg (by decide)]
    rw [show decodeSize
      (bytesAt [4, 0, 0, 0, 97, 98, 99, 100, 0, 0, 0] 0 4) = 4 from rfl]
    dsimp only
    rw [if_neg (by decide)]
    rw [if_neg (by decide)]
    rw [checkLoop]
    rw [if_pos (by decide)]
  · intro segMax data h
    exact checkLoop_partial_hint segMax data 0 0 0 h

theorem C4_witness :
    (checkStreamComplete 8 [4, 0, 0, 0, 97, 98, 99, 100, 0, 0, 0]).status =
      .PARTIAL ∧
    (checkStreamComplete 8 [4, 0, 0, 0, 97, 98, 99, 100, 0, 0, 0]).stream_size =
      checkScanPos [4, 0, 0, 0, 97, 98, 99, 100, 0, 0, 0] +
        kSegmentMaxTotalSize 8 := by
  have hst : (checkStreamComplete 8
      [4, 0, 0, 0, 97, 98, 99, 100, 0, 0, 0]).status = .PARTIAL := by
    rw [C4_partial_detection.1 8]
  exact ⟨hst, C4_partial_detection.2 8 _ hst⟩

/-- C5 (amended): `Reader::GetSegment` raises a framing error exactly when
leftover payload is pending at finalize, a header extends past the buffer
end, finalize sees a non-zero header, a zero header appears where a
non-empty segment is expected, or the segment payload extends past the
buffer end; and a well-formed stream read within its bounds raises no
framing error. -/
theorem C5_framing_error_characterization :
    (∀ (data : List Nat) (sbf : Bool) (r : Reader),
      isErr (getSegment data sbf r) = true ↔
        (r.have_ ≠ 0 ∧ sbf = true) ∨
        (r.have_ = 0 ∧ data.length < r.pos + 4) ∨
        (r.have_ = 0 ∧ ¬data.length < r.pos + 4 ∧
          ((sbf = true ∧ decodeSize (bytesAt data r.pos 4) ≠ 0) ∨
           (sbf = false ∧ decodeSize (bytesAt data r.pos 4) = 0) ∨
           data.length < r.pos + 4 + decodeSize (bytesAt data r.pos 4)))) ∧
    (∀ segs : List (List Nat),
      (∀ s ∈ segs, s ≠ [] ∧ s.length < 4294967296) →
      load (encodeSegs segs ++ encodeSize 0) Reader.start
          segs.flatten.length =
        .ok (segs.flatten, ⟨(encodeSegs segs).length, 0⟩) ∧
      readerFinalize (encodeSegs segs ++ encodeSize 0)
          ⟨(encodeSegs segs).length, 0⟩ =
        .ok ⟨(encodeSegs segs).length + 4, 0⟩) := by
  constructor
  · intro data sbf r
    unfold getSegment
    dsimp only
    by_cases h0 : r.have_ ≠ 0
    · rw [if_pos h0]
      cases sbf <;> simp [isErr, h0]
    · rw [if_neg h0]
      simp only [ne_eq, Decidable.not_not] at h0
      by_cases h1 : data.length < r.pos + 4
      · rw [if_pos h1]
        simp [isErr, h0, h1]
      · rw [if_neg h1]
        cases sbf
        · simp only [Bool.false_eq_true, false_and, if_false, eq_self_iff_true,
            true_and]
          by_cases h2 : decodeSize (bytesAt data r.pos 4) = 0
          · rw [if_pos h2]
            simp [isErr, h0, h1, h2]
          · rw [if_neg h2]
            by_cases h3 : data.length < r.pos + 4 + decodeSize (bytesAt data r.pos 4)
            · rw [if_pos h3]
              simp [isErr, h0, h1, h2, h3]
            · rw [if_neg h3]
              simp [isErr, h0, h1, h2, h3]
        · by_cases h2 : decodeSize (bytesAt data r.pos 4) ≠ 0
          · rw [if_pos ⟨rfl, h2⟩]
            simp [isErr, h0, h1, h2]
          · rw [if_neg (by simpa using h2)]
            simp only [ne_eq, Decidable.not_not] at h2
            rw [if_neg (by simp [h2])]
            by_cases h3 : data.length < r.pos + 4 + decodeSize (bytesAt data r.pos 4)
            · exact absurd h3 (by omega)
            · rw [if_neg h3]
              simp [isErr, h0, h1, h2, h3]
  · intro segs hsegs
    exact stream_load_finalize_ok segs hsegs

/-- C5, as stated, is refuted: on `[05 00 00 00] [1, 2, 3]` a framing error
is raised (the declared 5-byte payload overruns the 7-byte buffer) although
the header lies fully inside the buffer, the header is non-zero, and the
read is not a finalize — none of the three causes the claim lists. -/
theorem C5_counterexample_payload_overrun :
    isErr (getSegment [5, 0, 0, 0, 1, 2, 3] false ⟨0, 0⟩) = true ∧
    ¬(([5, 0, 0, 0, 1, 2, 3] : List Nat).length < 0 + 4) ∧
    decodeSize (bytesAt [5, 0, 0, 0, 1, 2, 3] 0 4) ≠ 0 := by decide

theorem C5_witness :
    load (encodeSegs [[7]] ++ encodeSize 0) Reader.start
        ([[7]] : List (List Nat)).flatten.length =
      .ok (([[7]] : List (List Nat)).flatten, ⟨(encodeSegs [[7]]).length, 0⟩) ∧
    readerFinalize (encodeSegs [[7]] ++ encodeSize 0)
        ⟨(encodeSegs [[7]]).length, 0⟩ =
      .ok ⟨(encodeSegs [[7]]).length + 4, 0⟩ :=
  C5_framing_error_characterization.2 [[7]] (by decide)

/-- C9: a non-final flush below capacity is a no-op, so every segment the
builder actually flushes carries payload; taking the flush path (a final
flush, or a full buffer) with an empty buffer violates the
`MG_ASSERT(pos_ > 0)` assertion; in particular finalizing a builder into
which zero payload bytes were saved fails the assertion and emits no bare
terminator stream. -/
theorem C9_flush_requires_data (segMax : Nat) :
    (∀ b : Builder, b.buf.length < segMax →
      flushSegment segMax false b = some b) ∧
    (∀ b b' : Builder, flushSegment segMax false b = some b' → b' ≠ b →
      segMax ≤ b.buf.length) ∧
    (∀ (b : Builder) (finalSegment : Bool),
      (finalSegment = true ∨ segMax ≤ b.buf.length) → b.buf = [] →
      flushSegment segMax finalSegment b = none) ∧
    (∀ pieces : List (List Nat), pieces.flatten = [] →
      buildStream segMax pieces = none) := by
  have hnoop : ∀ b : Builder, b.buf.length < segMax →
      flushSegment segMax false b = some b := by
    intro b hb
    unfold flushSegment
    rw [if_pos ⟨by simp, hb⟩]
  have hassert : ∀ (b : Builder) (finalSegment : Bool),
      (finalSegment = true ∨ segMax ≤ b.buf.length) → b.buf = [] →
      flushSegment segMax finalSegment b = none := by
    intro b finalSegment hpath hbuf
    have hlen : b.buf.length = 0 := by rw [hbuf]; rfl
    unfold flushSegment
    rw [if_neg ?_, if_pos hlen]
    rcases hpath with h | h
    · simp [h]
    · intro hc
      omega
  refine ⟨hnoop, ?_, hassert, ?_⟩
  · intro b b' hf hne
    by_contra hc
    rw [hnoop b (by omega)] at hf
    cases hf
    exact hne rfl
  · intro pieces hp
    unfold buildStream
    rw [saveAll_all_empty segMax pieces hp]
    dsimp only
    rw [show builderFinalize segMax Builder.start = none from
      hassert Builder.start true (Or.inl rfl) rfl]

theorem C9_witness :
    ((⟨[1], []⟩ : Builder).buf.length < 8 ∧
      flushSegment 8 false ⟨[1], []⟩ = some ⟨[1], []⟩) ∧
    ((true = true ∨ 8 ≤ (⟨[], [9]⟩ : Builder).buf.length) ∧
      (⟨[], [9]⟩ : Builder).buf = [] ∧
      flushSegment 8 true ⟨[], [9]⟩ = none) ∧
    (([[]] : List (List Nat)).flatten = [] ∧ buildStream 8 [[]] = none) :=
  ⟨⟨by decide, (C9_flush_requires_data 8).1 ⟨[1], []⟩ (by decide)⟩,
    ⟨Or.inl rfl, rfl,
      (C9_flush_requires_data 8).2.2.1 ⟨[], [9]⟩ true (Or.inl rfl) rfl⟩,
    ⟨rfl, (C9_flush_requires_data 8).2.2.2 [[]] rfl⟩⟩

end slk

namespace distributed

theorem pullOne_stuck {op : OngoingProduce}
    (h : op.cursor_state ≠ .CURSOR_IN_PROGRESS) :
    pullOneFromCursor op = (([], op.cursor_state), op) := by
  unfold pullOneFromCursor
  rw [if_pos h]

theorem opAccumulate_stuck {op : OngoingProduce}
    (h : op.cursor_state ≠ .CURSOR_IN_PROGRESS) :
    opAccumulate op = (op.cursor_state, op) := by
  rw [opAccumulate]
  split
  · rename_i res s op1 heq
    rw [pullOne_stuck h] at heq
    cases heq
    rw [dif_neg h]

theorem opPull_pops_back {op : OngoingProduce} {l : List (List TVal)}
    {r : List TVal} (hacc : op.accumulation = l ++ [r])
    (hr : r.all (fun v => v.reconstructible) = true) :
    opPull op = ((r, .CURSOR_IN_PROGRESS), { op with accumulation := l }) := by
  unfold opPull
  rw [hacc, List.getLast?_concat]
  dsimp only
  rw [if_pos hr, List.dropLast_concat]

theorem opPull_pops_back_error {op : OngoingProduce} {l : List (List TVal)}
    {r : List TVal} (hacc : op.accumulation = l ++ [r])
    (hr : r.all (fun v => v.reconstructible) = false) :
    opPull op = ((r, .RECONSTRUCTION_ERROR),
      { op with accumulation := l,
                cursor_state := .RECONSTRUCTION_ERROR }) := by
  unfold opPull
  rw [hacc, List.getLast?_concat]
  dsimp only
  rw [if_neg (by simp [hr]), List.dropLast_concat]

theorem opPull_terminal_state {op op' : OngoingProduce} {res : List TVal}
    {s : RemotePullState} (h : opPull op = ((res, s), op'))
    (hs : s ≠ .CURSOR_IN_PROGRESS) : op'.cursor_state = s := by
  unfold opPull at h
  rcases hl : op.accumulation.getLast? with _ | results
  · rw [hl] at h
    dsimp only at h
    unfold pullOneFromCursor at h
    by_cases hc : op.cursor_state ≠ .CURSOR_IN_PROGRESS
    · rw [if_pos hc] at h
      cases h
      rfl
    · rw [if_neg hc] at h
      simp only [ne_eq, Decidable.not_not] at hc
      rcases hcur : op.cursor with _ | ⟨vals | e, rest⟩ <;> rw [hcur] at h
      · cases h
        rfl
      · cases h
        exact absurd rfl hs
      · cases h
        rfl
  · rw [hl] at h
    dsimp only at h
    by_cases hrec : results.all (fun v => v.reconstructible) = true
    · rw [if_pos hrec] at h
      cases h
      exact absurd rfl hs
    · rw [if_neg hrec] at h
      cases h
      rfl

/-- C2 (amended): a terminal pull state is sticky provided the accumulation
buffer is empty after the terminal pull: every later `Pull` returns the same
state with no results and leaves the ongoing produce (cursor included)
unchanged. -/
theorem C2_terminal_sticky_on_empty_accumulation
    (op op' : OngoingProduce) (res : List TVal) (s : RemotePullState)
    (h : opPull op = ((res, s), op')) (hs : s ≠ .CURSOR_IN_PROGRESS)
    (hacc : op'.accumulation = []) :
    opPull op' = (([], s), op') := by
  have hst : op'.cursor_state = s := opPull_terminal_state h hs
  unfold opPull
  rw [hacc, List.getLast?_nil]
  dsimp only
  rw [pullOne_stuck (by rw [hst]; exact hs), hst]

/-- C2, as stated, is refuted: after an accumulated produce whose back frame
fails reconstruction, `Pull` returns the terminal reconstruction-error state,
yet the very next `Pull` pops the remaining buffered frame and returns it
with cursor-in-progress — the terminal state was not sticky. -/
theorem C2_counterexample_buffered_after_error :
    (opPull ⟨[], .CURSOR_EXHAUSTED, [[⟨0, true⟩], [⟨1, false⟩]]⟩).1.2 =
      .RECONSTRUCTION_ERROR ∧
    (opPull ((opPull
        ⟨[], .CURSOR_EXHAUSTED, [[⟨0, true⟩], [⟨1, false⟩]]⟩).2)).1 =
      ([⟨0, true⟩], .CURSOR_IN_PROGRESS) := by decide

theorem C2_witness :
    opPull (⟨[], .CURSOR_EXHAUSTED, [[⟨5, false⟩]]⟩ : OngoingProduce) =
      (([⟨5, false⟩], .RECONSTRUCTION_ERROR),
        ⟨[], .RECONSTRUCTION_ERROR, []⟩) ∧
    (.RECONSTRUCTION_ERROR : RemotePullState) ≠ .CURSOR_IN_PROGRESS ∧
    (⟨[], .RECONSTRUCTION_ERROR, []⟩ : OngoingProduce).accumulation = [] ∧
    opPull (⟨[], .RECONSTRUCTION_ERROR, []⟩ : OngoingProduce) =
      (([], .RECONSTRUCTION_ERROR), ⟨[], .RECONSTRUCTION_ERROR, []⟩) :=
  ⟨by decide, by decide, by decide,
    C2_terminal_sticky_on_empty_accumulation
      ⟨[], .CURSOR_EXHAUSTED, [[⟨5, false⟩]]⟩
      ⟨[], .RECONSTRUCTION_ERROR, []⟩ [⟨5, false⟩] .RECONSTRUCTION_ERROR
      (by decide) (by decide) (by decide)⟩

theorem pullBatch_error_first (init : RemotePullState) (n : Nat)
    {op op1 : OngoingProduce} {res : List TVal} {s : RemotePullState}
    (h : opPull op = ((res, s), op1)) (hs : s ≠ .CURSOR_IN_PROGRESS) :
    pullBatch init (n + 1) op = ((s, []), op1) := by
  unfold pullBatch
  rw [h]
  dsimp only
  rw [if_pos hs]

/-- C3 (amended): with accumulate requested, if the drain ends in any state
other than cursor-exhausted, the response carries that state and no frames;
and when the first buffered frame pulled in the batch fails reconstruction —
in particular the most recently accumulated frame — the response has
pull-state reconstruction-error and no frame.  (Frames popped earlier in the
same batch are still returned, which is what the original claim misses.) -/
theorem C3_accumulate_error_response :
    (∀ (op op' : OngoingProduce) (s : RemotePullState) (batch : Nat),
      opAccumulate op = (s, op') → s ≠ .CURSOR_EXHAUSTED →
      remotePull true batch op = (⟨s, []⟩, op')) ∧
    (∀ (op : OngoingProduce) (l : List (List TVal)) (r : List TVal)
        (batch : Nat),
      op.cursor_state = .CURSOR_EXHAUSTED → op.accumulation = l ++ [r] →
      r.all (fun v => v.reconstructible) = false → 1 ≤ batch →
      remotePull true batch op =
        (⟨.RECONSTRUCTION_ERROR, []⟩,
          { op with accumulation := l,
                    cursor_state := .RECONSTRUCTION_ERROR })) := by
  constructor
  · intro op op' s batch h hs
    unfold remotePull
    rw [if_pos rfl, h]
    dsimp only
    rw [if_pos hs]
  · intro op l r batch hst hacc hr hb
    obtain ⟨n, rfl⟩ : ∃ n, batch = n + 1 := ⟨batch - 1, by omega⟩
    unfold remotePull
    rw [if_pos rfl, opAccumulate_stuck (by rw [hst]; simp), hst]
    dsimp only
    rw [if_neg (by simp)]
    rw [pullBatch_error_first .CURSOR_EXHAUSTED n
      (opPull_pops_back_error hacc hr) (by simp)]

/-- C3, as stated, is refuted: with two buffered frames of which only the
earlier-produced one fails reconstruction, a batched pull returns pull-state
reconstruction-error together with one frame — not "no frames". -/
theorem C3_counterexample_frame_with_error :
    (remotePull true 2
      ⟨[], .CURSOR_EXHAUSTED, [[⟨1, false⟩], [⟨0, true⟩]]⟩).1 =
      ⟨.RECONSTRUCTION_ERROR, [[⟨0, true⟩]]⟩ := by
  unfold remotePull
  rw [if_pos rfl, opAccumulate_stuck (by decide)]
  dsimp only
  rw [if_neg (by decide)]
  decide

theorem C3_witness :
    ((⟨[], .SERIALIZATION_ERROR, []⟩ : OngoingProduce).cursor_state ≠
        .CURSOR_IN_PROGRESS ∧
      (.SERIALIZATION_ERROR : RemotePullState) ≠ .CURSOR_EXHAUSTED ∧
      remotePull true 3 (⟨[], .SERIALIZATION_ERROR, []⟩ : OngoingProduce) =
        (⟨.SERIALIZATION_ERROR, []⟩,
          ⟨[], .SERIALIZATION_ERROR, []⟩)) ∧
    ((⟨[], .CURSOR_EXHAUSTED, [[⟨1, false⟩]]⟩ : OngoingProduce).cursor_state =
        .CURSOR_EXHAUSTED ∧
      (⟨[], .CURSOR_EXHAUSTED, [[⟨1, false⟩]]⟩ :
        OngoingProduce).accumulation = [] ++ [[⟨1, false⟩]] ∧
      ([⟨1, false⟩] : List TVal).all (fun v => v.reconstructible) = false ∧
      remotePull true 1 (⟨[], .CURSOR_EXHAUSTED, [[⟨1, false⟩]]⟩ :
          OngoingProduce) =
        (⟨.RECONSTRUCTION_ERROR, []⟩,
          ⟨[], .RECONSTRUCTION_ERROR, []⟩)) :=
  ⟨⟨by decide, by decide,
    C3_accumulate_error_response.1 ⟨[], .SERIALIZATION_ERROR, []⟩
      ⟨[], .SERIALIZATION_ERROR, []⟩ .SERIALIZATION_ERROR 3
      (opAccumulate_stuck (by decide)) (by decide)⟩,
   ⟨rfl, rfl, by decide,
    C3_accumulate_error_response.2 ⟨[], .CURSOR_EXHAUSTED, [[⟨1, false⟩]]⟩
      [] [⟨1, false⟩] 1 rfl rfl (by decide) (by decide)⟩⟩

theorem opAccumulate_rows (rows : List (List TVal)) :
    ∀ acc : List (List TVal),
    opAccumulate ⟨rows.map .row, .CURSOR_IN_PROGRESS, acc⟩ =
      (.CURSOR_EXHAUSTED, ⟨[], .CURSOR_EXHAUSTED, acc ++ rows⟩) := by
  induction rows with
  | nil =>
    intro acc
    rw [opAccumulate]
    split
    · rename_i res s op1 heq
      rw [show pullOneFromCursor ⟨List.map .row [], .CURSOR_IN_PROGRESS, acc⟩ =
          (([], .CURSOR_EXHAUSTED),
            ⟨[], .CURSOR_EXHAUSTED, acc⟩) from rfl] at heq
      cases heq
      rw [dif_neg (by simp)]
      simp
  | cons r rest ih =>
    intro acc
    rw [opAccumulate]
    split
    · rename_i res s op1 heq
      rw [show pullOneFromCursor
          ⟨List.map .row (r :: rest), .CURSOR_IN_PROGRESS, acc⟩ =
          ((r, .CURSOR_IN_PROGRESS),
            ⟨List.map .row rest, .CURSOR_IN_PROGRESS, acc⟩) from rfl] at heq
      cases heq
      rw [dif_pos rfl]
      rw [ih (acc ++ [r])]
      simp

/-- C8: after a successful accumulation the buffered frames sit in
production order at the back of the buffer, and `Pull` pops the back of the
buffer — so frames come back in reverse (LIFO) order of their production. -/
theorem C8_lifo_order :
    (∀ (acc rows : List (List TVal)),
      opAccumulate ⟨rows.map .row, .CURSOR_IN_PROGRESS, acc⟩ =
        (.CURSOR_EXHAUSTED, ⟨[], .CURSOR_EXHAUSTED, acc ++ rows⟩)) ∧
    (∀ (op : OngoingProduce) (l : List (List TVal)) (r : List TVal),
      op.accumulation = l ++ [r] →
      r.all (fun v => v.reconstructible) = true →
      opPull op = ((r, .CURSOR_IN_PROGRESS),
        { op with accumulation := l })) :=
  ⟨fun acc rows => opAccumulate_rows rows acc,
   fun _ _ _ hacc hr => opPull_pops_back hacc hr⟩

theorem C8_witness :
    opAccumulate ⟨[.row [⟨1, true⟩], .row [⟨2, true⟩]],
        .CURSOR_IN_PROGRESS, []⟩ =
      (.CURSOR_EXHAUSTED,
        ⟨[], .CURSOR_EXHAUSTED, [[⟨1, true⟩], [⟨2, true⟩]]⟩) ∧
    (⟨[], .CURSOR_EXHAUSTED, [[⟨1, true⟩], [⟨2, true⟩]]⟩ :
        OngoingProduce).accumulation = [[⟨1, true⟩]] ++ [[⟨2, true⟩]] ∧
    ([⟨2, true⟩] : List TVal).all (fun v => v.reconstructible) = true ∧
    opPull (⟨[], .CURSOR_EXHAUSTED, [[⟨1, true⟩], [⟨2, true⟩]]⟩ :
        OngoingProduce) =
      (([⟨2, true⟩], .CURSOR_IN_PROGRESS),
        ⟨[], .CURSOR_EXHAUSTED, [[⟨1, true⟩]]⟩) :=
  ⟨C8_lifo_order.1 [] [[⟨1, true⟩], [⟨2, true⟩]],
   rfl, by decide,
   C8_lifo_order.2 ⟨[], .CURSOR_EXHAUSTED, [[⟨1, true⟩], [⟨2, true⟩]]⟩
     [[⟨1, true⟩]] [⟨2, true⟩] rfl (by decide)⟩

/-- C6: the transactional-cache cleanup keeps an entry exactly when it was
in the map and its transaction identifier is not strictly below the
published oldest-active identifier; kept entries are unchanged. -/
theorem C6_clear_cache_exact (oldest : Nat)
    (m : List ((Nat × Nat) × OngoingProduce))
    (kv : (Nat × Nat) × OngoingProduce) :
    kv ∈ clearTransactionalCache oldest m ↔ kv ∈ m ∧ ¬kv.1.1 < oldest := by
  simp [clearTransactionalCache, List.mem_filter]

end distributed

namespace config

/-- C7: the `snapshot_cycle_sec` flag defaults to 3600, but its registered
validator accepts any value in `[1, 2^31 - 1]`: it accepts 30 — a value
below the minimum of 60 documented by the flag's own help text and required
by the spec — and rejects 0.  The code contradicts its own documentation. -/
theorem C7_validator_accepts_below_documented_min :
    snapshotCycleSecDefault = 3600 ∧
    snapshotCycleSecValid 30 = true ∧
    (30 : Int) < snapshotCycleSecDocumentedMin ∧
    snapshotCycleSecValid 0 = false ∧
    (∀ v : Int, snapshotCycleSecValid v = true ↔ 1 ≤ v ∧ v ≤ 2147483647) := by
  refine ⟨rfl, by decide, by decide, by decide, ?_⟩
  intro v
  simp [snapshotCycleSecValid]

end config

namespace glue

mutual

theorem roundtrip_val : ∀ (v : BoltValue), plain v = true →
    (toPropertyValue v).map toBoltValue = some v
  | .null, _ => rfl
  | .bool _, _ => rfl
  | .int _, _ => rfl
  | .double _, _ => rfl
  | .str _, _ => rfl
  | .list l, h => by
    have hl := roundtrip_list l (by simpa [plain] using h)
    simp only [toPropertyValue]
    cases hll : toPropertyValueList l with
    | none => rw [hll] at hl; simp at hl
    | some l2 =>
      rw [hll] at hl
      simp only [Option.map_some'] at hl ⊢
      simp only [toBoltValue]
      cases hl
      rfl
  | .map m, h => by
    have hm := roundtrip_map m (by simpa [plain] using h)
    simp only [toPropertyValue]
    cases hmm : toPropertyValueMap m with
    | none => rw [hmm] at hm; simp at hm
    | some m2 =>
      rw [hmm] at hm
      simp only [Option.map_some'] at hm ⊢
      simp only [toBoltValue]
      cases hm
      rfl

theorem roundtrip_list : ∀ (l : List BoltValue), plainList l = true →
    (toPropertyValueList l).map toBoltValueList = some l
  | [], _ => rfl
  | v :: rest, h => by
    have h1 : plain v = true := by
      have hh := h
      simp [plainList, Bool.and_eq_true] at hh
      exact hh.1
    have h2 : plainList rest = true := by
      have hh := h
      simp [plainList, Bool.and_eq_true] at hh
      exact hh.2
    have hv := roundtrip_val v h1
    have hr := roundtrip_list rest h2
    simp only [toPropertyValueList]
    cases hvv : toPropertyValue v with
    | none => rw [hvv] at hv; simp at hv
    | some p =>
      rw [hvv] at hv
      cases hrr : toPropertyValueList rest with
      | none => rw [hrr] at hr; simp at hr
      | some ps =>
        rw [hrr] at hr
        simp only [Option.map_some'] at hv hr ⊢
        simp only [toBoltValueList]
        cases hv
        cases hr
        rfl

theorem roundtrip_map : ∀ (m : List (String × BoltValue)), plainMap m = true →
    (toPropertyValueMap m).map toBoltValueMap = some m
  | [], _ => rfl
  | (k, v) :: rest, h => by
    have h1 : plain v = true := by
      have hh := h
      simp [plainMap, Bool.and_eq_true] at hh
      exact hh.1
    have h2 : plainMap rest = true := by
      have hh := h
      simp [plainMap, Bool.and_eq_true] at hh
      exact hh.2
    have hv := roundtrip_val v h1
    have hr := roundtrip_map rest h2
    simp only [toPropertyValueMap]
    cases hvv : toPropertyValue v with
    | none => rw [hvv] at hv; simp at hv
    | some p =>
      rw [hvv] at hv
      cases hrr : toPropertyValueMap rest with
      | none => rw [hrr] at hr; simp at hr
      | some ps =>
        rw [hrr] at hr
        simp only [Option.map_some'] at hv hr ⊢
        simp only [toBoltValueMap]
        cases hv
        cases hr
        rfl

end

/-- C10: converting a Bolt value recursively built from the seven
property-representable types to a property value and back is the identity;
converting a vertex, edge, unbounded-edge, or path Bolt value raises the
value-conversion error (modelled as `none`). -/
theorem C10_value_conversion_roundtrip :
    (∀ v : BoltValue, plain v = true →
      (toPropertyValue v).map toBoltValue = some v) ∧
    (∀ payload : Nat,
      toPropertyValue (.vertex payload) = none ∧
      toPropertyValue (.edge payload) = none ∧
      toPropertyValue (.unboundedEdge payload) = none ∧
      toPropertyValue (.path payload) = none) :=
  ⟨roundtrip_val, fun _ => ⟨rfl, rfl, rfl, rfl⟩⟩

theorem C10_witness :
    plain (.list [.int 3, .map [("a", .str "x")], .double 7]) = true ∧
    (toPropertyValue
        (.list [.int 3, .map [("a", .str "x")], .double 7])).map toBoltValue =
      some (.list [.int 3, .map [("a", .str "x")], .double 7]) :=
  ⟨by decide,
    C10_value_conversion_roundtrip.1
      (.list [.int 3, .map [("a", .str "x")], .double 7]) (by decide)⟩

end glue
